import Mathlib


/-- Opaque reference to a foreign type (a `syn::Type` in the source). -/
abbrev TypeRef := Nat

/-- The `Derive` enum of `options.rs`: the six recognized owned-type derive
capabilities. -/
inductive Derive where
  | Default
  | PartialEq
  | Eq
  | PartialOrd
  | Ord
  | Hash
deriving DecidableEq

/-- The `Derives` bitset of `options.rs` (one boolean field per capability,
declared in the order of the `derives!` macro invocation). -/
structure Derives where
  default : Bool
  partial_eq : Bool
  eq : Bool
  partial_ord : Bool
  ord : Bool
  hash : Bool
deriving DecidableEq

/-- The `Derives::default()` value: all flags cleared. -/
def Derives.empty : Derives :=
  ⟨false, false, false, false, false, false⟩

/-- `Derives::insert`: sets the flag matching the given capability. -/
def Derives.insert (s : Derives) (d : Derive) : Derives :=
  match d with
  | .Default => { s with default := true }
  | .PartialEq => { s with partial_eq := true }
  | .Eq => { s with eq := true }
  | .PartialOrd => { s with partial_ord := true }
  | .Ord => { s with ord := true }
  | .Hash => { s with hash := true }

/-- `Derives::append`: or-accumulates every flag of `other` into `self`. -/
def Derives.append (s other : Derives) : Derives :=
  ⟨s.default || other.default,
   s.partial_eq || other.partial_eq,
   s.eq || other.eq,
   s.partial_ord || other.partial_ord,
   s.ord || other.ord,
   s.hash || other.hash⟩

/-- `Derives::iter`: the set flags, listed in field order. -/
def Derives.toList (s : Derives) : List Derive :=
  (if s.default then [Derive.Default] else [])
    ++ (if s.partial_eq then [Derive.PartialEq] else [])
    ++ (if s.eq then [Derive.Eq] else [])
    ++ (if s.partial_ord then [Derive.PartialOrd] else [])
    ++ (if s.ord then [Derive.Ord] else [])
    ++ (if s.hash then [Derive.Hash] else [])

/-- The `OwnedTypeAttribute` enum of `attribute.rs`: a sub-attribute of an
`owned(...)` fragment, either the owned-type identifier or a `derive(...)`
list. -/
inductive OwnedTypeAttribute where
  | Ident (i : String)
  | Derive (ds : List Derive)
deriving DecidableEq

/-- The `Attribute` enum of `attribute.rs`: one already-parsed configuration
fragment. -/
inductive Attribute where
  | Name (value : String)
  | Owned (attrs : List OwnedTypeAttribute)
  | Eq (types : List TypeRef)
  | Ord (types : List TypeRef)
  | Serde
  | NoDeref
  | Infallible
deriving DecidableEq

/-- The `ForeignOptions` struct of `options.rs`. -/
structure ForeignOptions where
  eq : List TypeRef
  ord : List TypeRef
  serde : Bool
deriving DecidableEq

/-- The `OwnedTypeOptions` struct of `options.rs`. -/
structure OwnedTypeOptions where
  ident : String
  derives : Derives
deriving DecidableEq

/-- The `Options` struct of `options.rs`: the resolved configuration. -/
structure Options where
  name : Option String
  owned : Option OwnedTypeOptions
  foreign : ForeignOptions
  no_deref : Bool
  infallible : Bool
deriving DecidableEq

/-- `Options::default()`: the initial state of the fold. -/
def Options.init : Options :=
  { name := none, owned := none, foreign := ⟨[], [], false⟩,
    no_deref := false, infallible := false }

/-- One step of the loop in the `Attribute::Owned` arm of `Options::apply`:
the last `Ident` sub-attribute wins, `Derive` sub-attributes insert each
listed capability. -/
def ownedStep (acc : Option String × Derives) (a : OwnedTypeAttribute) :
    Option String × Derives :=
  match a with
  | .Ident i => (some i, acc.2)
  | .Derive ds => (acc.1, ds.foldl Derives.insert acc.2)

/-- The ident/derives pair the `Attribute::Owned` arm collects from the
fragment's sub-attribute list. -/
def collectOwned (attrs : List OwnedTypeAttribute) : Option String × Derives :=
  attrs.foldl ownedStep (none, Derives.empty)

/-- `Options::apply` of `options.rs`. In the source every arm returns
`Ok(())`; the single `todo!()` on the path `Attribute::Owned` with no
collected identifier and `self.owned == None` panics, which this embedding
models as `none`. Every other path yields `some` of the updated options. -/
def Options.apply (o : Options) (attr : Attribute) : Option Options :=
  match attr with
  | .Name v =>
    match o.name with
    | some n => some { o with name := some (n ++ v) }
    | none => some { o with name := some v }
  | .Owned attrs =>
    let c := collectOwned attrs
    match o.owned with
    | some sized =>
      let ident := match c.1 with
        | some i => i
        | none => sized.ident
      some { o with owned := some ⟨ident, sized.derives.append c.2⟩ }
    | none =>
      match c.1 with
      | some ident => some { o with owned := some ⟨ident, c.2⟩ }
      | none => none
  | .Eq types =>
    some { o with foreign := { o.foreign with eq := o.foreign.eq ++ types } }
  | .Ord types =>
    some { o with foreign := { o.foreign with ord := o.foreign.ord ++ types } }
  | .Serde => some { o with foreign := { o.foreign with serde := true } }
  | .NoDeref => some { o with no_deref := true }
  | .Infallible => some { o with infallible := true }

/-- Folding `Options::apply` over a fragment list, as the caller in
`new_type.rs` does (`for attr in attrs { options.apply(attr)? }`);
`none` propagates a panic. -/
def Options.applyAll (o : Options) : List Attribute → Option Options
  | [] => some o
  | a :: rest =>
    match o.apply a with
    | some o₂ => o₂.applyAll rest
    | none => none

/-- The resolver: fold all fragments into a configuration, starting from
`Options::default()`. -/
def resolve (fs : List Attribute) : Option Options :=
  Options.init.applyAll fs

/-- Types a single fragment appends to `foreign.eq` (the `Vec::extend` in the
`Attribute::Eq` arm). -/
def eqAttr : Attribute → List TypeRef
  | .Eq ts => ts
  | _ => []

/-- Types a single fragment appends to `foreign.ord`. -/
def ordAttr : Attribute → List TypeRef
  | .Ord ts => ts
  | _ => []

/-- Derive flags a single fragment accumulates into the owned spec. -/
def fragDerives : Attribute → Derives
  | .Owned attrs => (collectOwned attrs).2
  | _ => Derives.empty

/-- The owned-type identifier a single fragment writes, when it writes one. -/
def fragIdent : Attribute → Option String
  | .Owned attrs => (collectOwned attrs).1
  | _ => none

/-- The display-name piece a single fragment appends, when it has one. -/
def fragName : Attribute → Option String
  | .Name v => some v
  | _ => none

/-- Whether the fragment is the `infallible` flag. -/
def isInfallibleAttr : Attribute → Bool
  | .Infallible => true
  | _ => false

/-- Whether the fragment is the `no_deref` flag. -/
def isNoDerefAttr : Attribute → Bool
  | .NoDeref => true
  | _ => false

/-- Concatenation, in order, of the fragments' `foreign.eq` contributions. -/
def eqDelta : List Attribute → List TypeRef
  | [] => []
  | a :: rest => eqAttr a ++ eqDelta rest

/-- Concatenation, in order, of the fragments' `foreign.ord` contributions. -/
def ordDelta : List Attribute → List TypeRef
  | [] => []
  | a :: rest => ordAttr a ++ ordDelta rest

/-- Accumulated derive flags over a fragment list. -/
def derivesDelta : List Attribute → Derives
  | [] => Derives.empty
  | a :: rest => (fragDerives a).append (derivesDelta rest)

/-- Derive-flag view of the resolved owned spec (meaningless but defined as
the empty set when no owned type is requested). -/
def Options.ownedDerives (o : Options) : Derives :=
  match o.owned with
  | some w => w.derives
  | none => Derives.empty

/-- Identifier view of the resolved owned spec. -/
def Options.ownedIdent (o : Options) : Option String :=
  match o.owned with
  | some w => some w.ident
  | none => none

/-- Last write wins: the resolved value of a write sequence, given the value
before it. -/
def lastWrite (w old : Option String) : Option String :=
  match w with
  | some i => some i
  | none => old

/-- Display-name values supplied by the fragments, in order. -/
def namesOf (fs : List Attribute) : List String :=
  fs.filterMap fragName

/-- Owned-type identifiers written by the fragments, in order (an owned
fragment without an identifier writes nothing). -/
def identWrites (fs : List Attribute) : List String :=
  fs.filterMap fragIdent

/-- Values written to the `infallible` flag, in order (each `infallible`
fragment writes the constant `true`). -/
def infWrites (fs : List Attribute) : List Bool :=
  fs.filterMap (fun a => if isInfallibleAttr a then some true else none)

/-- Values written to the `no_deref` flag, in order. -/
def ndWrites (fs : List Attribute) : List Bool :=
  fs.filterMap (fun a => if isNoDerefAttr a then some true else none)

/-- In-order concatenation of a list of strings. -/
def catStrings : List String → String
  | [] => ""
  | v :: r => v ++ catStrings r

/-- The last element of a write sequence, or the initial value when nothing
was written: the last-write-wins combinator. -/
def lastD {α : Type} : List α → α → α
  | [], d => d
  | a :: r, _ => lastD r a

/-- Display-name accumulation as `Options::apply` performs it: the first
write initializes, later writes `push_str`-append. -/
def mergeName : Option String → List String → Option String
  | o, [] => o
  | some n, v :: r => mergeName (some (n ++ v)) r
  | none, v :: r => mergeName (some v) r

/-- Concrete fragment list exercising every merge rule of C9: two name
fragments, a `no_deref`, an `infallible`, and two owned fragments whose
identifiers overwrite each other. -/
def fs9c : List Attribute :=
  [Attribute.Name "iri ", Attribute.Name "reference", Attribute.NoDeref,
   Attribute.Infallible, Attribute.Owned [OwnedTypeAttribute.Ident "X"],
   Attribute.Owned [OwnedTypeAttribute.Ident "Y"]]

/-- The configuration `fs9c` resolves to. -/
def t9c : Options :=
  Options.mk (some "iri reference")
    (some (OwnedTypeOptions.mk "Y" Derives.empty))
    (ForeignOptions.mk [] [] false) true true

/-- The payload-free artifact tags (every generated item that does not
carry a foreign type or an identifier). -/
inductive ArtifactKind where
  | errorType
  | wrapperNew
  | wrapperFromBytes
  | wrapperFromStr
  | wrapperNewUncheckedFromBytes
  | wrapperNewUnchecked
  | wrapperTryFromBytes
  | wrapperTryFromStr
  | wrapperFromStrConv
  | wrapperAsStr
  | wrapperAsBytes
  | asRefSelf
  | asRefStr
  | asRefBytes
  | wrapperDisplay
  | wrapperDebug
  | borrowStr
  | strFromWrapper
  | bytesFromWrapper
  | derefImpl
  | serializeImpl
  | deserializeImpl
  | ownedNew
  | ownedFromBytes
  | ownedFromString
  | ownedNewUnchecked
  | ownedAsRefAccessor
  | ownedTryFromVec
  | ownedTryFromString
  | ownedFromStringConv
  | ownedFromStrImpl
  | ownedAsStr
  | ownedAsBytes
  | ownedIntoString
  | ownedIntoBytes
  | ownedBorrowWrapper
  | toOwnedImpl
  | ownedDeref
  | ownedAsRefWrapper
  | ownedAsRefStr
  | ownedAsRefBytes
  | ownedDebug
  | ownedDisplay
  | stringFromOwned
  | vecFromOwned
  | ownedSerialize
  | ownedDeserialize
  | ownedDefault
  | ownedEqOwned
  | ownedEqWrapper
  | ownedEqWrapperRef
  | wrapperEqOwned
  | wrapperRefEqOwned
  | ownedEqMarker
  | ownedOrdOwned
  | ownedOrdWrapper
  | ownedOrdWrapperRef
  | wrapperOrdOwned
  | wrapperRefOrdOwned
  | ownedOrdTotal
  | ownedHashImpl
deriving DecidableEq

/-- One generated artifact: a payload-free tag, a wrapper-vs-foreign or
owned-vs-foreign comparison pair carrying its foreign type, or the owned
struct carrying its identifier. -/
inductive Artifact where
  | plain (k : ArtifactKind)
  | foreignEqPair (t : TypeRef)
  | foreignOrdPair (t : TypeRef)
  | ownedStruct (ident : String)
  | ownedForeignEqPair (t : TypeRef)
  | ownedForeignOrdPair (t : TypeRef)
deriving DecidableEq

/-- Artifact tag `errorType`. -/
abbrev Artifact.errorType : Artifact :=
  .plain .errorType

/-- Artifact tag `wrapperNew`. -/
abbrev Artifact.wrapperNew : Artifact :=
  .plain .wrapperNew

/-- Artifact tag `wrapperFromBytes`. -/
abbrev Artifact.wrapperFromBytes : Artifact :=
  .plain .wrapperFromBytes

/-- Artifact tag `wrapperFromStr`. -/
abbrev Artifact.wrapperFromStr : Artifact :=
  .plain .wrapperFromStr

/-- Artifact tag `wrapperNewUncheckedFromBytes`. -/
abbrev Artifact.wrapperNewUncheckedFromBytes : Artifact :=
  .plain .wrapperNewUncheckedFromBytes

/-- Artifact tag `wrapperNewUnchecked`. -/
abbrev Artifact.wrapperNewUnchecked : Artifact :=
  .plain .wrapperNewUnchecked

/-- Artifact tag `wrapperTryFromBytes`. -/
abbrev Artifact.wrapperTryFromBytes : Artifact :=
  .plain .wrapperTryFromBytes

/-- Artifact tag `wrapperTryFromStr`. -/
abbrev Artifact.wrapperTryFromStr : Artifact :=
  .plain .wrapperTryFromStr

/-- Artifact tag `wrapperFromStrConv`. -/
abbrev Artifact.wrapperFromStrConv : Artifact :=
  .plain .wrapperFromStrConv

/-- Artifact tag `wrapperAsStr`. -/
abbrev Artifact.wrapperAsStr : Artifact :=
  .plain .wrapperAsStr

/-- Artifact tag `wrapperAsBytes`. -/
abbrev Artifact.wrapperAsBytes : Artifact :=
  .plain .wrapperAsBytes

/-- Artifact tag `asRefSelf`. -/
abbrev Artifact.asRefSelf : Artifact :=
  .plain .asRefSelf

/-- Artifact tag `asRefStr`. -/
abbrev Artifact.asRefStr : Artifact :=
  .plain .asRefStr

/-- Artifact tag `asRefBytes`. -/
abbrev Artifact.asRefBytes : Artifact :=
  .plain .asRefBytes

/-- Artifact tag `wrapperDisplay`. -/
abbrev Artifact.wrapperDisplay : Artifact :=
  .plain .wrapperDisplay

/-- Artifact tag `wrapperDebug`. -/
abbrev Artifact.wrapperDebug : Artifact :=
  .plain .wrapperDebug

/-- Artifact tag `borrowStr`. -/
abbrev Artifact.borrowStr : Artifact :=
  .plain .borrowStr

/-- Artifact tag `strFromWrapper`. -/
abbrev Artifact.strFromWrapper : Artifact :=
  .plain .strFromWrapper

/-- Artifact tag `bytesFromWrapper`. -/
abbrev Artifact.bytesFromWrapper : Artifact :=
  .plain .bytesFromWrapper

/-- Artifact tag `derefImpl`. -/
abbrev Artifact.derefImpl : Artifact :=
  .plain .derefImpl

/-- Artifact tag `serializeImpl`. -/
abbrev Artifact.serializeImpl : Artifact :=
  .plain .serializeImpl

/-- Artifact tag `deserializeImpl`. -/
abbrev Artifact.deserializeImpl : Artifact :=
  .plain .deserializeImpl

/-- Artifact tag `ownedNew`. -/
abbrev Artifact.ownedNew : Artifact :=
  .plain .ownedNew

/-- Artifact tag `ownedFromBytes`. -/
abbrev Artifact.ownedFromBytes : Artifact :=
  .plain .ownedFromBytes

/-- Artifact tag `ownedFromString`. -/
abbrev Artifact.ownedFromString : Artifact :=
  .plain .ownedFromString

/-- Artifact tag `ownedNewUnchecked`. -/
abbrev Artifact.ownedNewUnchecked : Artifact :=
  .plain .ownedNewUnchecked

/-- Artifact tag `ownedAsRefAccessor`. -/
abbrev Artifact.ownedAsRefAccessor : Artifact :=
  .plain .ownedAsRefAccessor

/-- Artifact tag `ownedTryFromVec`. -/
abbrev Artifact.ownedTryFromVec : Artifact :=
  .plain .ownedTryFromVec

/-- Artifact tag `ownedTryFromString`. -/
abbrev Artifact.ownedTryFromString : Artifact :=
  .plain .ownedTryFromString

/-- Artifact tag `ownedFromStringConv`. -/
abbrev Artifact.ownedFromStringConv : Artifact :=
  .plain .ownedFromStringConv

/-- Artifact tag `ownedFromStrImpl`. -/
abbrev Artifact.ownedFromStrImpl : Artifact :=
  .plain .ownedFromStrImpl

/-- Artifact tag `ownedAsStr`. -/
abbrev Artifact.ownedAsStr : Artifact :=
  .plain .ownedAsStr

/-- Artifact tag `ownedAsBytes`. -/
abbrev Artifact.ownedAsBytes : Artifact :=
  .plain .ownedAsBytes

/-- Artifact tag `ownedIntoString`. -/
abbrev Artifact.ownedIntoString : Artifact :=
  .plain .ownedIntoString

/-- Artifact tag `ownedIntoBytes`. -/
abbrev Artifact.ownedIntoBytes : Artifact :=
  .plain .ownedIntoBytes

/-- Artifact tag `ownedBorrowWrapper`. -/
abbrev Artifact.ownedBorrowWrapper : Artifact :=
  .plain .ownedBorrowWrapper

/-- Artifact tag `toOwnedImpl`. -/
abbrev Artifact.toOwnedImpl : Artifact :=
  .plain .toOwnedImpl

/-- Artifact tag `ownedDeref`. -/
abbrev Artifact.ownedDeref : Artifact :=
  .plain .ownedDeref

/-- Artifact tag `ownedAsRefWrapper`. -/
abbrev Artifact.ownedAsRefWrapper : Artifact :=
  .plain .ownedAsRefWrapper

/-- Artifact tag `ownedAsRefStr`. -/
abbrev Artifact.ownedAsRefStr : Artifact :=
  .plain .ownedAsRefStr

/-- Artifact tag `ownedAsRefBytes`. -/
abbrev Artifact.ownedAsRefBytes : Artifact :=
  .plain .ownedAsRefBytes

/-- Artifact tag `ownedDebug`. -/
abbrev Artifact.ownedDebug : Artifact :=
  .plain .ownedDebug

/-- Artifact tag `ownedDisplay`. -/
abbrev Artifact.ownedDisplay : Artifact :=
  .plain .ownedDisplay

/-- Artifact tag `stringFromOwned`. -/
abbrev Artifact.stringFromOwned : Artifact :=
  .plain .stringFromOwned

/-- Artifact tag `vecFromOwned`. -/
abbrev Artifact.vecFromOwned : Artifact :=
  .plain .vecFromOwned

/-- Artifact tag `ownedSerialize`. -/
abbrev Artifact.ownedSerialize : Artifact :=
  .plain .ownedSerialize

/-- Artifact tag `ownedDeserialize`. -/
abbrev Artifact.ownedDeserialize : Artifact :=
  .plain .ownedDeserialize

/-- Artifact tag `ownedDefault`. -/
abbrev Artifact.ownedDefault : Artifact :=
  .plain .ownedDefault

/-- Artifact tag `ownedEqOwned`. -/
abbrev Artifact.ownedEqOwned : Artifact :=
  .plain .ownedEqOwned

/-- Artifact tag `ownedEqWrapper`. -/
abbrev Artifact.ownedEqWrapper : Artifact :=
  .plain .ownedEqWrapper

/-- Artifact tag `ownedEqWrapperRef`. -/
abbrev Artifact.ownedEqWrapperRef : Artifact :=
  .plain .ownedEqWrapperRef

/-- Artifact tag `wrapperEqOwned`. -/
abbrev Artifact.wrapperEqOwned : Artifact :=
  .plain .wrapperEqOwned

/-- Artifact tag `wrapperRefEqOwned`. -/
abbrev Artifact.wrapperRefEqOwned : Artifact :=
  .plain .wrapperRefEqOwned

/-- Artifact tag `ownedEqMarker`. -/
abbrev Artifact.ownedEqMarker : Artifact :=
  .plain .ownedEqMarker

/-- Artifact tag `ownedOrdOwned`. -/
abbrev Artifact.ownedOrdOwned : Artifact :=
  .plain .ownedOrdOwned

/-- Artifact tag `ownedOrdWrapper`. -/
abbrev Artifact.ownedOrdWrapper : Artifact :=
  .plain .ownedOrdWrapper

/-- Artifact tag `ownedOrdWrapperRef`. -/
abbrev Artifact.ownedOrdWrapperRef : Artifact :=
  .plain .ownedOrdWrapperRef

/-- Artifact tag `wrapperOrdOwned`. -/
abbrev Artifact.wrapperOrdOwned : Artifact :=
  .plain .wrapperOrdOwned

/-- Artifact tag `wrapperRefOrdOwned`. -/
abbrev Artifact.wrapperRefOrdOwned : Artifact :=
  .plain .wrapperRefOrdOwned

/-- Artifact tag `ownedOrdTotal`. -/
abbrev Artifact.ownedOrdTotal : Artifact :=
  .plain .ownedOrdTotal

/-- Artifact tag `ownedHashImpl`. -/
abbrev Artifact.ownedHashImpl : Artifact :=
  .plain .ownedHashImpl

/-- `Derive::generate` of `new_type.rs`: the artifacts one derive flag emits
on the owned type. Owned-vs-foreign equality pairs (each routed through the
owned type's borrowing accessor, `owned_partial_eq_impl`) are emitted here,
in the `PartialEq` arm, over `foreign.eq.iter().chain(&foreign.ord)`;
owned-vs-foreign ordering pairs in the `PartialOrd` arm over `foreign.ord`. -/
def Derive.generate (d : Derive) (foreign : ForeignOptions) : List Artifact :=
  match d with
  | .Default => [.ownedDefault]
  | .PartialEq =>
    [.ownedEqOwned, .ownedEqWrapper, .ownedEqWrapperRef, .wrapperEqOwned,
     .wrapperRefEqOwned]
      ++ (foreign.eq ++ foreign.ord).map Artifact.ownedForeignEqPair
  | .Eq => [.ownedEqMarker]
  | .PartialOrd =>
    [.ownedOrdOwned, .ownedOrdWrapper, .ownedOrdWrapperRef, .wrapperOrdOwned,
     .wrapperRefOrdOwned]
      ++ foreign.ord.map Artifact.ownedForeignOrdPair
  | .Ord => [.ownedOrdTotal]
  | .Hash => [.ownedHashImpl]

/-- `derive_owned_type` of `new_type.rs`: the owned companion type's
artifacts; `error` is whether the validation-error type exists (fallible
mode). -/
def deriveOwnedType (options : OwnedTypeOptions) (foreign : ForeignOptions)
    (error : Bool) : List Artifact :=
  [Artifact.ownedStruct options.ident]
    ++ (if error then
          [.ownedNew, .ownedFromBytes, .ownedFromString, .ownedNewUnchecked,
           .ownedAsRefAccessor, .ownedTryFromVec, .ownedTryFromString,
           .ownedFromStrImpl]
        else
          [.ownedNew, .ownedFromString, .ownedFromBytes, .ownedAsRefAccessor,
           .ownedTryFromVec, .ownedFromStringConv, .ownedFromStrImpl])
    ++ [.ownedAsStr, .ownedAsBytes, .ownedIntoString, .ownedIntoBytes,
        .ownedBorrowWrapper, .toOwnedImpl, .ownedDeref, .ownedAsRefWrapper,
        .ownedAsRefStr, .ownedAsRefBytes, .ownedDebug, .ownedDisplay,
        .stringFromOwned, .vecFromOwned]
    ++ (if foreign.serde then [.ownedSerialize] else [])
    ++ (if foreign.serde then [.ownedDeserialize] else [])
    ++ options.derives.toList.flatMap (fun d => d.generate foreign)

/-- `derive_with_options` of `new_type.rs`: the full artifact set for one
wrapper-type declaration. Wrapper-vs-foreign equality pairs are emitted for
`foreign.eq.iter().chain(&foreign.ord)`, ordering pairs for `foreign.ord`. -/
def deriveWithOptions (options : Options) : List Artifact :=
  (if options.infallible then
     [.wrapperNew, .wrapperFromBytes, .wrapperFromStr, .wrapperTryFromBytes,
      .wrapperFromStrConv]
   else
     [.errorType, .wrapperNew, .wrapperFromBytes, .wrapperFromStr,
      .wrapperNewUncheckedFromBytes, .wrapperNewUnchecked,
      .wrapperTryFromBytes, .wrapperTryFromStr])
    ++ [.wrapperAsStr, .wrapperAsBytes, .asRefSelf, .asRefStr, .asRefBytes,
        .wrapperDisplay, .wrapperDebug, .borrowStr, .strFromWrapper,
        .bytesFromWrapper]
    ++ (if options.no_deref then [] else [.derefImpl])
    ++ (options.foreign.eq ++ options.foreign.ord).map Artifact.foreignEqPair
    ++ options.foreign.ord.map Artifact.foreignOrdPair
    ++ (if options.foreign.serde then [.serializeImpl] else [])
    ++ (if options.foreign.serde then [.deserializeImpl] else [])
    ++ (match options.owned with
        | some o => deriveOwnedType o options.foreign (!options.infallible)
        | none => [])

/-- The foreign type a wrapper-vs-foreign equality pair targets, when the
artifact is one. -/
def eqPairType : Artifact → Option TypeRef
  | .foreignEqPair t => some t
  | _ => none

/-- Configuration exercising C7: type 5 appears under `ord` only. -/
def ex7 : Options :=
  Options.mk none none (ForeignOptions.mk [3] [5] false) false false

/-- Configuration with an owned companion requested, one foreign type under
`eq`, and an empty derive-flag set. -/
def ex3 : Options :=
  Options.mk none (some (OwnedTypeOptions.mk "FooBuf" Derives.empty))
    (ForeignOptions.mk [0] [] false) false false

/-- Configuration as `ex3` but with the `PartialEq` derive flag requested. -/
def ex3p : Options :=
  Options.mk none
    (some (OwnedTypeOptions.mk "FooBuf"
      (Derives.mk false true false false false false)))
    (ForeignOptions.mk [0] [] false) false false

/-- A byte (`u8`). -/
abbrev Byte := Nat

/-- A byte slice (`&[u8]` or `Vec<u8>`). -/
abbrev Bytes := List Byte

/-- A borrowed or owned string, modelled by its UTF-8 bytes. -/
abbrev Str := Bytes

/-- The generated wrapper type `Type(str)`: `new_unchecked_from_bytes`
transmutes a byte slice reference into `&Type`, so a wrapper value is
exactly the underlying bytes. -/
structure Wrapper where
  bytes : Bytes
deriving DecidableEq

/-- `Type::new_unchecked_from_bytes`: the transmute, no validation. -/
def Wrapper.new_unchecked_from_bytes (input : Bytes) : Wrapper :=
  ⟨input⟩

/-- `Type::new_unchecked`: delegates to the byte transmute over
`input.as_bytes()`. -/
def Wrapper.new_unchecked (input : Str) : Wrapper :=
  Wrapper.new_unchecked_from_bytes input

/-- `Type::as_str`: the underlying `str` (its bytes, in this model). -/
def Wrapper.as_str (w : Wrapper) : Str :=
  w.bytes

/-- `Type::as_bytes`: `self.0.as_bytes()`. -/
def Wrapper.as_bytes (w : Wrapper) : Bytes :=
  w.bytes

/-- The generated error carrier `Invalid{Type}<T>(pub T)`, wrapping the
rejected input. -/
structure Invalid (T : Type) where
  val : T
deriving DecidableEq

namespace Fallible

/-- Fallible `Type::new<T: AsRef<[u8]>>`: validates `input.as_ref()` with
`validate_bytes` and on failure wraps the original input in the error
carrier (the `AsRef` view is the identity in this model). -/
def new (validate_bytes : Bytes → Bool) (input : Bytes) :
    Except (Invalid Bytes) Wrapper :=
  if validate_bytes input then
    .ok (Wrapper.new_unchecked_from_bytes input)
  else
    .error ⟨input⟩

/-- Fallible `Type::from_bytes`: validates with `validate_bytes`. -/
def from_bytes (validate_bytes : Bytes → Bool) (input : Bytes) :
    Except (Invalid Bytes) Wrapper :=
  if validate_bytes input then
    .ok (Wrapper.new_unchecked_from_bytes input)
  else
    .error ⟨input⟩

/-- Fallible `Type::from_str`: validates with `validate_str` (the predicate
matching the character-sequence representation) and constructs through
`new_unchecked`. -/
def from_str (validate_str : Str → Bool) (input : Str) :
    Except (Invalid Str) Wrapper :=
  if validate_str input then
    .ok (Wrapper.new_unchecked input)
  else
    .error ⟨input⟩

end Fallible

/-- Continuation-byte test of the UTF-8 well-formedness check. -/
def isCont (b : Byte) : Bool :=
  0x80 ≤ b && b ≤ 0xBF

/-- Well-formedness of a byte sequence as UTF-8 (`std::str::from_utf8`
succeeds exactly on such sequences): one- to four-byte scalar encodings,
continuation-byte ranges, no overlongs, no surrogates, max U+10FFFF. -/
def utf8Wf : Bytes → Bool
  | [] => true
  | b :: rest =>
    if b ≤ 0x7F then
      utf8Wf rest
    else if 0xC2 ≤ b && b ≤ 0xDF then
      match rest with
      | c1 :: r => isCont c1 && utf8Wf r
      | [] => false
    else if b == 0xE0 then
      match rest with
      | c1 :: c2 :: r => (0xA0 ≤ c1 && c1 ≤ 0xBF) && isCont c2 && utf8Wf r
      | _ => false
    else if (0xE1 ≤ b && b ≤ 0xEC) || b == 0xEE || b == 0xEF then
      match rest with
      | c1 :: c2 :: r => isCont c1 && isCont c2 && utf8Wf r
      | _ => false
    else if b == 0xED then
      match rest with
      | c1 :: c2 :: r => (0x80 ≤ c1 && c1 ≤ 0x9F) && isCont c2 && utf8Wf r
      | _ => false
    else if b == 0xF0 then
      match rest with
      | c1 :: c2 :: c3 :: r =>
        (0x90 ≤ c1 && c1 ≤ 0xBF) && isCont c2 && isCont c3 && utf8Wf r
      | _ => false
    else if 0xF1 ≤ b && b ≤ 0xF3 then
      match rest with
      | c1 :: c2 :: c3 :: r =>
        isCont c1 && isCont c2 && isCont c3 && utf8Wf r
      | _ => false
    else if b == 0xF4 then
      match rest with
      | c1 :: c2 :: c3 :: r =>
        (0x80 ≤ c1 && c1 ≤ 0x8F) && isCont c2 && isCont c3 && utf8Wf r
      | _ => false
    else
      false

/-- The text-decoding error (`std::str::Utf8Error`), distinct from the
validation error carrier. -/
inductive Utf8Error where
  | utf8Error
deriving DecidableEq

namespace Infallible

/-- Infallible `Type::from_str`: a direct transmute, total, calling no
validation predicate. -/
def from_str (input : Str) : Wrapper :=
  Wrapper.new_unchecked input

/-- Infallible `Type::new<T: AsRef<str>>`: `Self::from_str(input.as_ref())`;
total, calling no validation predicate. -/
def new (input : Str) : Wrapper :=
  from_str input

/-- Infallible `Type::from_bytes`: decodes with `std::str::from_utf8`; its
only failure is the text-decoding error, never a validation failure. -/
def from_bytes (input : Bytes) : Except Utf8Error Wrapper :=
  if utf8Wf input then
    .ok (from_str input)
  else
    .error .utf8Error

end Infallible

/-- Wrapper equality (the user-derived `PartialEq` on `Type(str)` compares
the underlying `str`, i.e. the bytes). -/
def Wrapper.beq (a b : Wrapper) : Bool :=
  a.bytes == b.bytes

/-- Lexicographic byte comparison: the total order `str` provides. -/
def compareBytes : Bytes → Bytes → Ordering
  | [], [] => .eq
  | [], _ :: _ => .lt
  | _ :: _, [] => .gt
  | x :: xs, y :: ys =>
    if x < y then .lt else if y < x then .gt else compareBytes xs ys

/-- Wrapper `partial_cmp` (the user-derived `PartialOrd` on `Type(str)`):
total on strings, so always `some`. -/
def Wrapper.partial_cmp (a b : Wrapper) : Option Ordering :=
  some (compareBytes a.bytes b.bytes)

/-- Generated `impl PartialEq<T> for Type`, fallible branch of
`partial_eq_impl`: construct a wrapper from the foreign value with
`Self::new`; a construction failure makes the comparison `false`. The
foreign value is modelled by its `AsRef<[u8]>` view. -/
def eqWrapperForeign (validate_bytes : Bytes → Bool) (w : Wrapper)
    (f : Bytes) : Bool :=
  match Fallible.new validate_bytes f with
  | .ok other => w.beq other
  | .error _ => false

/-- Generated `impl PartialEq<Type> for T`, fallible branch. -/
def eqForeignWrapper (validate_bytes : Bytes → Bool) (f : Bytes)
    (w : Wrapper) : Bool :=
  match Fallible.new validate_bytes f with
  | .ok this => this.beq w
  | .error _ => false

/-- Generated `impl PartialOrd<T> for Type`, fallible branch of
`partial_ord_impl`: a construction failure yields `None` (incomparable). -/
def ordWrapperForeign (validate_bytes : Bytes → Bool) (w : Wrapper)
    (f : Bytes) : Option Ordering :=
  match Fallible.new validate_bytes f with
  | .ok other => w.partial_cmp other
  | .error _ => none

/-- Generated `impl PartialOrd<Type> for T`, fallible branch. -/
def ordForeignWrapper (validate_bytes : Bytes → Bool) (f : Bytes)
    (w : Wrapper) : Option Ordering :=
  match Fallible.new validate_bytes f with
  | .ok this => this.partial_cmp w
  | .error _ => none

/-- Generated `impl PartialEq<T> for Type`, infallible branch:
`self == Self::new(other)`, always a plain value comparison. -/
def eqWrapperForeignInfallible (w : Wrapper) (f : Str) : Bool :=
  w.beq (Infallible.new f)

/-- Generated `impl PartialOrd<T> for Type`, infallible branch. -/
def ordWrapperForeignInfallible (w : Wrapper) (f : Str) : Option Ordering :=
  w.partial_cmp (Infallible.new f)

/-- The generated owned companion `OwnedType(String)`: its buffer, modelled
by the string's bytes. -/
structure Owned where
  buf : Bytes
deriving DecidableEq

/-- The borrowing accessor `as_{type}`:
`Type::new_unchecked(self.0.as_str())`, a fresh zero-copy view on every
call. -/
def Owned.as_wrapper (o : Owned) : Wrapper :=
  Wrapper.new_unchecked o.buf

/-- Generated `impl PartialEq for OwnedType` (the `PartialEq` derive flag):
`<Type as PartialEq>::eq(self.as_ref(), other.as_ref())` — both sides go
through the borrowing accessor. -/
def Owned.eq (a b : Owned) : Bool :=
  a.as_wrapper.beq b.as_wrapper

/-- Generated `impl Hash for OwnedType` (the `Hash` derive flag):
`<Type as Hash>::hash(self.as_ref(), state)` — the wrapper's hash applied
to the borrowing accessor's output, with the wrapper hash abstracted as a
function into hash values. -/
def Owned.hash (h : Wrapper → Nat) (a : Owned) : Nat :=
  h a.as_wrapper


/-! ## Lemmas and claim theorems -/

theorem Derives.empty_append (d : Derives) : Derives.empty.append d = d := by
  cases d
  simp [Derives.append, Derives.empty]

theorem Derives.append_empty (d : Derives) : d.append Derives.empty = d := by
  cases d
  simp [Derives.append, Derives.empty]

theorem Derives.append_assoc (a b c : Derives) :
    (a.append b).append c = a.append (b.append c) := by
  cases a
  cases b
  cases c
  simp [Derives.append, Bool.or_assoc]

theorem Derives.append_self (d : Derives) : d.append d = d := by
  cases d
  simp [Derives.append]

theorem apply_step (s s₁ : Options) (a : Attribute) (h : s.apply a = some s₁) :
    s₁.foreign.eq = s.foreign.eq ++ eqAttr a ∧
    s₁.foreign.ord = s.foreign.ord ++ ordAttr a ∧
    s₁.ownedDerives = s.ownedDerives.append (fragDerives a) ∧
    s₁.ownedIdent = lastWrite (fragIdent a) s.ownedIdent ∧
    (s₁.name = match fragName a with
      | some v => match s.name with
        | some n => some (n ++ v)
        | none => some v
      | none => s.name) ∧
    (s₁.infallible = if isInfallibleAttr a then true else s.infallible) ∧
    (s₁.no_deref = if isNoDerefAttr a then true else s.no_deref) ∧
    (s.owned.isSome = true → s₁.owned.isSome = true) := by
  cases a with
  | Name v =>
    cases hn : s.name <;>
      · simp only [Options.apply, hn] at h
        cases h
        simp [eqAttr, ordAttr, fragDerives, fragIdent, fragName, lastWrite,
          isInfallibleAttr, isNoDerefAttr, Options.ownedDerives,
          Options.ownedIdent, Derives.append_empty, hn]
  | Owned attrs =>
    cases ho : s.owned with
    | some sized =>
      simp only [Options.apply, ho] at h
      cases h
      cases hc : (collectOwned attrs).1 <;>
        simp [eqAttr, ordAttr, fragDerives, fragIdent, fragName, lastWrite,
          isInfallibleAttr, isNoDerefAttr, Options.ownedDerives,
          Options.ownedIdent, ho, hc]
    | none =>
      simp only [Options.apply, ho] at h
      cases hc : (collectOwned attrs).1 with
      | some ident =>
        rw [hc] at h
        cases h
        simp [eqAttr, ordAttr, fragDerives, fragIdent, fragName, lastWrite,
          isInfallibleAttr, isNoDerefAttr, Options.ownedDerives,
          Options.ownedIdent, ho, hc, Derives.empty_append]
      | none =>
        rw [hc] at h
        cases h
  | Eq ts =>
    simp only [Options.apply] at h
    cases h
    simp [eqAttr, ordAttr, fragDerives, fragIdent, fragName, lastWrite,
      isInfallibleAttr, isNoDerefAttr, Options.ownedDerives,
      Options.ownedIdent, Derives.append_empty]
  | Ord ts =>
    simp only [Options.apply] at h
    cases h
    simp [eqAttr, ordAttr, fragDerives, fragIdent, fragName, lastWrite,
      isInfallibleAttr, isNoDerefAttr, Options.ownedDerives,
      Options.ownedIdent, Derives.append_empty]
  | Serde =>
    simp only [Options.apply] at h
    cases h
    simp [eqAttr, ordAttr, fragDerives, fragIdent, fragName, lastWrite,
      isInfallibleAttr, isNoDerefAttr, Options.ownedDerives,
      Options.ownedIdent, Derives.append_empty]
  | NoDeref =>
    simp only [Options.apply] at h
    cases h
    simp [eqAttr, ordAttr, fragDerives, fragIdent, fragName, lastWrite,
      isInfallibleAttr, isNoDerefAttr, Options.ownedDerives,
      Options.ownedIdent, Derives.append_empty]
  | Infallible =>
    simp only [Options.apply] at h
    cases h
    simp [eqAttr, ordAttr, fragDerives, fragIdent, fragName, lastWrite,
      isInfallibleAttr, isNoDerefAttr, Options.ownedDerives,
      Options.ownedIdent, Derives.append_empty]

theorem applyAll_append (s : Options) (xs ys : List Attribute) :
    s.applyAll (xs ++ ys) =
      match s.applyAll xs with
      | some t => t.applyAll ys
      | none => none := by
  induction xs generalizing s with
  | nil => rfl
  | cons a xs ih =>
    simp only [List.cons_append, Options.applyAll]
    cases s.apply a with
    | none => rfl
    | some o₂ => exact ih o₂

theorem applyAll_eq_field (fs : List Attribute) (s t : Options)
    (h : s.applyAll fs = some t) :
    t.foreign.eq = s.foreign.eq ++ eqDelta fs := by
  induction fs generalizing s with
  | nil =>
    cases h
    simp [eqDelta]
  | cons a fs ih =>
    rw [Options.applyAll] at h
    cases ha : s.apply a with
    | none => rw [ha] at h; cases h
    | some s₁ =>
      rw [ha] at h
      rw [eqDelta, ih s₁ h, (apply_step s s₁ a ha).1, List.append_assoc]

theorem applyAll_ord_field (fs : List Attribute) (s t : Options)
    (h : s.applyAll fs = some t) :
    t.foreign.ord = s.foreign.ord ++ ordDelta fs := by
  induction fs generalizing s with
  | nil =>
    cases h
    simp [ordDelta]
  | cons a fs ih =>
    rw [Options.applyAll] at h
    cases ha : s.apply a with
    | none => rw [ha] at h; cases h
    | some s₁ =>
      rw [ha] at h
      rw [ordDelta, ih s₁ h, (apply_step s s₁ a ha).2.1, List.append_assoc]

theorem applyAll_derives (fs : List Attribute) (s t : Options)
    (h : s.applyAll fs = some t) :
    t.ownedDerives = s.ownedDerives.append (derivesDelta fs) := by
  induction fs generalizing s with
  | nil =>
    cases h
    simp [derivesDelta, Derives.append_empty]
  | cons a fs ih =>
    rw [Options.applyAll] at h
    cases ha : s.apply a with
    | none => rw [ha] at h; cases h
    | some s₁ =>
      rw [ha] at h
      rw [derivesDelta, ih s₁ h, (apply_step s s₁ a ha).2.2.1,
        Derives.append_assoc]

theorem applyAll_owned_mono (fs : List Attribute) (s t : Options)
    (h : s.applyAll fs = some t) (hs : s.owned.isSome = true) :
    t.owned.isSome = true := by
  induction fs generalizing s with
  | nil => cases h; exact hs
  | cons a fs ih =>
    rw [Options.applyAll] at h
    cases ha : s.apply a with
    | none => rw [ha] at h; cases h
    | some s₁ =>
      rw [ha] at h
      exact ih s₁ h ((apply_step s s₁ a ha).2.2.2.2.2.2.2 hs)

/-- Presence of the owned spec after one `Options::apply` step: an owned
fragment that collects an identifier creates it, everything else keeps it. -/
theorem apply_owned_isSome (o o₁ : Options) (a : Attribute)
    (h : o.apply a = some o₁) :
    o₁.owned.isSome = (o.owned.isSome || (fragIdent a).isSome) := by
  cases a with
  | Name v =>
    cases hn : o.name <;>
      · simp only [Options.apply, hn] at h
        cases h
        simp [fragIdent]
  | Owned attrs =>
    cases ho : o.owned with
    | some sized =>
      simp only [Options.apply, ho] at h
      cases h
      cases hc : (collectOwned attrs).1 <;> simp [fragIdent, ho, hc]
    | none =>
      simp only [Options.apply, ho] at h
      cases hc : (collectOwned attrs).1 with
      | some ident =>
        rw [hc] at h
        cases h
        simp [fragIdent, ho, hc]
      | none => rw [hc] at h; cases h
  | Eq ts => simp only [Options.apply] at h; cases h; simp [fragIdent]
  | Ord ts => simp only [Options.apply] at h; cases h; simp [fragIdent]
  | Serde => simp only [Options.apply] at h; cases h; simp [fragIdent]
  | NoDeref => simp only [Options.apply] at h; cases h; simp [fragIdent]
  | Infallible => simp only [Options.apply] at h; cases h; simp [fragIdent]

/-- An `Options::apply` step can only panic on an owned fragment without an
identifier applied to a state with no owned spec yet. -/
theorem apply_succeeds (o : Options) (a : Attribute)
    (h : ∀ attrs, a = Attribute.Owned attrs →
      ((collectOwned attrs).1.isSome || o.owned.isSome) = true) :
    ∃ o₁, o.apply a = some o₁ := by
  cases a with
  | Name v => cases hn : o.name <;> simp [Options.apply, hn]
  | Owned attrs =>
    cases ho : o.owned with
    | some sized => simp [Options.apply, ho]
    | none =>
      cases hc : (collectOwned attrs).1 with
      | some ident => simp [Options.apply, ho, hc]
      | none =>
        have := h attrs rfl
        rw [hc, ho] at this
        simp at this
  | Eq ts => simp [Options.apply]
  | Ord ts => simp [Options.apply]
  | Serde => simp [Options.apply]
  | NoDeref => simp [Options.apply]
  | Infallible => simp [Options.apply]

/-- When one pass over a fragment list succeeds from `s`, a second pass
succeeds from any state whose owned spec is at least as present as that
of `s` — in particular from the first pass's own result. -/
theorem apply_again (s s₁ w : Options) (a : Attribute) (h : s.apply a = some s₁)
    (hw : s.owned.isSome = true → w.owned.isSome = true) :
    ∃ w₁, w.apply a = some w₁ ∧
      (s₁.owned.isSome = true → w₁.owned.isSome = true) := by
  obtain ⟨w₁, hw₁⟩ := apply_succeeds w a (by
    intro attrs ha
    subst ha
    cases hc : (collectOwned attrs).1 with
    | some ident => simp [fragIdent, hc]
    | none =>
      cases hso : s.owned with
      | none => simp [Options.apply, hso, hc] at h
      | some ssized =>
        have := hw (by simp [hso])
        simp [this])
  refine ⟨w₁, hw₁, ?_⟩
  intro h₁
  rw [apply_owned_isSome w w₁ a hw₁]
  rw [apply_owned_isSome s s₁ a h] at h₁
  rcases Bool.or_eq_true_iff.1 h₁ with hs | hf
  · simp [hw hs]
  · simp [hf]

theorem applyAll_again (fs : List Attribute) (s t w : Options)
    (h : s.applyAll fs = some t)
    (hw : s.owned.isSome = true → w.owned.isSome = true) :
    ∃ u, w.applyAll fs = some u := by
  induction fs generalizing s w with
  | nil => exact ⟨w, rfl⟩
  | cons a fs ih =>
    rw [Options.applyAll] at h
    cases ha : s.apply a with
    | none => rw [ha] at h; cases h
    | some s₁ =>
      rw [ha] at h
      obtain ⟨w₁, hw₁, himp⟩ := apply_again s s₁ w a ha hw
      rw [Options.applyAll, hw₁]
      exact ih s₁ w₁ h himp

/-- C2 counterexample: doubling the fragment list is not idempotent for
`foreign_eq`. The fragment sequence with one `eq(T)` fragment resolves to
`foreign.eq = [T]`, but its doubling resolves to `[T, T]`: `Vec::extend`
accumulates duplicates, so the claimed identity of the `foreign_eq`
collections fails. -/
theorem c2_merge_idempotence_counterexample :
    (resolve ([Attribute.Eq [0]] ++ [Attribute.Eq [0]])).map
        (fun o => o.foreign.eq) ≠
      (resolve [Attribute.Eq [0]]).map (fun o => o.foreign.eq) := by
  decide

/-- C2, amended: if resolving `fs` succeeds, resolving the doubled list
`fs ++ fs` also succeeds; the resulting `derive_flags` set is identical to
the single resolution (boolean or-accumulation is idempotent), while the
`foreign_eq` and `foreign_ord` sequences are the single resolution's
sequences concatenated with themselves (duplicates accumulate). -/
theorem c2_merge_idempotence_amended (fs : List Attribute) (t : Options)
    (h : resolve fs = some t) :
    ∃ u, resolve (fs ++ fs) = some u ∧
      u.ownedDerives = t.ownedDerives ∧
      u.foreign.eq = t.foreign.eq ++ t.foreign.eq ∧
      u.foreign.ord = t.foreign.ord ++ t.foreign.ord := by
  obtain ⟨u, hu⟩ := applyAll_again fs Options.init t t h
    (fun hs => by simp [Options.init] at hs)
  refine ⟨u, ?_, ?_, ?_, ?_⟩
  · rw [resolve, applyAll_append]
    rw [resolve] at h
    rw [h]
    exact hu
  · have h₁ := applyAll_derives fs Options.init t h
    have h₂ := applyAll_derives fs t u hu
    rw [h₂, h₁]
    simp only [Options.ownedDerives, Options.init]
    rw [Derives.empty_append, Derives.append_self]
  · have h₁ := applyAll_eq_field fs Options.init t h
    have h₂ := applyAll_eq_field fs t u hu
    rw [h₂, h₁]
    simp [Options.init]
  · have h₁ := applyAll_ord_field fs Options.init t h
    have h₂ := applyAll_ord_field fs t u hu
    rw [h₂, h₁]
    simp [Options.init]

/-- Witness for the amended C2 at the concrete fragment list
`[eq([0]), ord([1]), owned(W, derive(Hash))]`. -/
theorem c2_merge_idempotence_amended_witness :
    resolve [Attribute.Eq [0], Attribute.Ord [1],
        Attribute.Owned [OwnedTypeAttribute.Ident "W",
          OwnedTypeAttribute.Derive [Derive.Hash]]] =
      some (Options.mk none
        (some (OwnedTypeOptions.mk "W"
          (Derives.mk false false false false false true)))
        (ForeignOptions.mk [0] [1] false) false false) ∧
    ∃ u, resolve ([Attribute.Eq [0], Attribute.Ord [1],
        Attribute.Owned [OwnedTypeAttribute.Ident "W",
          OwnedTypeAttribute.Derive [Derive.Hash]]] ++
        [Attribute.Eq [0], Attribute.Ord [1],
        Attribute.Owned [OwnedTypeAttribute.Ident "W",
          OwnedTypeAttribute.Derive [Derive.Hash]]]) = some u ∧
      u.ownedDerives = (Options.mk none
        (some (OwnedTypeOptions.mk "W"
          (Derives.mk false false false false false true)))
        (ForeignOptions.mk [0] [1] false) false false).ownedDerives ∧
      u.foreign.eq = (Options.mk none
        (some (OwnedTypeOptions.mk "W"
          (Derives.mk false false false false false true)))
        (ForeignOptions.mk [0] [1] false) false false).foreign.eq ++
        (Options.mk none
        (some (OwnedTypeOptions.mk "W"
          (Derives.mk false false false false false true)))
        (ForeignOptions.mk [0] [1] false) false false).foreign.eq ∧
      u.foreign.ord = (Options.mk none
        (some (OwnedTypeOptions.mk "W"
          (Derives.mk false false false false false true)))
        (ForeignOptions.mk [0] [1] false) false false).foreign.ord ++
        (Options.mk none
        (some (OwnedTypeOptions.mk "W"
          (Derives.mk false false false false false true)))
        (ForeignOptions.mk [0] [1] false) false false).foreign.ord :=
  ⟨by decide, c2_merge_idempotence_amended _ _ (by decide)⟩

/-- C4: the spec requires a missing owned-type identifier on the first
`owned(...)` fragment to surface as a `ConfigError` returned as an ordinary
failure value. The source instead reaches `todo!()` (options.rs, the
`None => todo!()` arm of `Options::apply`), which panics; the embedding
models that panic as `none`, and resolution of such a fragment list indeed
hits it. -/
theorem c4_owned_without_ident_panics :
    resolve [Attribute.Owned [OwnedTypeAttribute.Derive [Derive.PartialEq]]] =
      none := by
  decide

theorem applyAll_name (fs : List Attribute) (s t : Options)
    (h : s.applyAll fs = some t) :
    t.name = mergeName s.name (namesOf fs) := by
  induction fs generalizing s with
  | nil => cases h; simp [namesOf, mergeName]
  | cons a fs ih =>
    rw [Options.applyAll] at h
    cases ha : s.apply a with
    | none => rw [ha] at h; cases h
    | some s₁ =>
      rw [ha] at h
      have hstep := (apply_step s s₁ a ha).2.2.2.2.1
      rw [ih s₁ h, hstep]
      cases hf : fragName a with
      | none => simp [namesOf, List.filterMap_cons, hf]
      | some v =>
        cases hn : s.name <;>
          simp [namesOf, List.filterMap_cons, hf, hn, mergeName]

theorem applyAll_ident (fs : List Attribute) (s t : Options)
    (h : s.applyAll fs = some t) :
    t.ownedIdent = lastD ((identWrites fs).map some) s.ownedIdent := by
  induction fs generalizing s with
  | nil => cases h; simp [identWrites, lastD]
  | cons a fs ih =>
    rw [Options.applyAll] at h
    cases ha : s.apply a with
    | none => rw [ha] at h; cases h
    | some s₁ =>
      rw [ha] at h
      have hstep := (apply_step s s₁ a ha).2.2.2.1
      rw [ih s₁ h, hstep]
      cases hf : fragIdent a with
      | none => simp [identWrites, List.filterMap_cons, hf, lastWrite]
      | some i => simp [identWrites, List.filterMap_cons, hf, lastWrite, lastD]

theorem applyAll_infallible (fs : List Attribute) (s t : Options)
    (h : s.applyAll fs = some t) :
    t.infallible = lastD (infWrites fs) s.infallible := by
  induction fs generalizing s with
  | nil => cases h; simp [infWrites, lastD]
  | cons a fs ih =>
    rw [Options.applyAll] at h
    cases ha : s.apply a with
    | none => rw [ha] at h; cases h
    | some s₁ =>
      rw [ha] at h
      have hstep := (apply_step s s₁ a ha).2.2.2.2.2.1
      rw [ih s₁ h, hstep]
      cases hf : isInfallibleAttr a with
      | false => simp [infWrites, List.filterMap_cons, hf]
      | true => simp [infWrites, List.filterMap_cons, hf, lastD]

theorem applyAll_noDeref (fs : List Attribute) (s t : Options)
    (h : s.applyAll fs = some t) :
    t.no_deref = lastD (ndWrites fs) s.no_deref := by
  induction fs generalizing s with
  | nil => cases h; simp [ndWrites, lastD]
  | cons a fs ih =>
    rw [Options.applyAll] at h
    cases ha : s.apply a with
    | none => rw [ha] at h; cases h
    | some s₁ =>
      rw [ha] at h
      have hstep := (apply_step s s₁ a ha).2.2.2.2.2.2.1
      rw [ih s₁ h, hstep]
      cases hf : isNoDerefAttr a with
      | false => simp [ndWrites, List.filterMap_cons, hf]
      | true => simp [ndWrites, List.filterMap_cons, hf, lastD]

theorem mergeName_some (l : List String) (n : String) :
    mergeName (some n) l = some (n ++ catStrings l) := by
  induction l generalizing n with
  | nil => simp [mergeName, catStrings]
  | cons v r ih =>
    rw [mergeName, ih]
    simp [catStrings, String.append_assoc]

theorem mergeName_none (l : List String) :
    mergeName none l =
      match l with
      | [] => none
      | v :: r => some (catStrings (v :: r)) := by
  cases l with
  | nil => rfl
  | cons v r =>
    rw [mergeName, mergeName_some]
    simp [catStrings]

/-- C9: folding fragments into a configuration, the display name is the
in-order concatenation of every supplied name value (absent when none is
supplied), while the owned-type identifier, the `infallible` flag and the
`no_deref` (suppress-dereference) flag each resolve to the last written
value — the initial default when nothing writes them. Each `infallible` or
`no_deref` occurrence writes the constant `true`, so last-write-wins
coincides with presence there. -/
theorem c9_merge_policy (fs : List Attribute) (t : Options)
    (h : resolve fs = some t) :
    (t.name = match namesOf fs with
      | [] => none
      | v :: r => some (catStrings (v :: r))) ∧
    t.ownedIdent = lastD ((identWrites fs).map some) none ∧
    t.infallible = lastD (infWrites fs) false ∧
    t.no_deref = lastD (ndWrites fs) false := by
  refine ⟨?_, ?_, ?_, ?_⟩
  · rw [applyAll_name fs Options.init t h]
    rw [show Options.init.name = none from rfl]
    exact mergeName_none (namesOf fs)
  · rw [applyAll_ident fs Options.init t h]
    rfl
  · rw [applyAll_infallible fs Options.init t h]
    rfl
  · rw [applyAll_noDeref fs Options.init t h]
    rfl

/-- Witness for C9 at `fs9c`. -/
theorem c9_merge_policy_witness :
    resolve fs9c = some t9c ∧
    ((t9c.name = match namesOf fs9c with
      | [] => none
      | v :: r => some (catStrings (v :: r))) ∧
    t9c.ownedIdent = lastD ((identWrites fs9c).map some) none ∧
    t9c.infallible = lastD (infWrites fs9c) false ∧
    t9c.no_deref = lastD (ndWrites fs9c) false) :=
  ⟨by decide, c9_merge_policy fs9c t9c (by decide)⟩

theorem filterMap_comp_eqPair (l : List TypeRef) :
    List.filterMap (eqPairType ∘ Artifact.foreignEqPair) l = l := by
  induction l with
  | nil => rfl
  | cons a l ih => simp [List.filterMap_cons, eqPairType, Function.comp, ih]

theorem filterMap_comp_ordPair (l : List TypeRef) :
    List.filterMap (eqPairType ∘ Artifact.foreignOrdPair) l = [] := by
  induction l with
  | nil => rfl
  | cons a l ih => simp [List.filterMap_cons, eqPairType, Function.comp, ih]

theorem filterMap_eqPairType_generate (d : Derive) (f : ForeignOptions) :
    (d.generate f).filterMap eqPairType = [] := by
  cases d <;>
    simp [Derive.generate, List.filterMap_append, List.filterMap_cons,
      eqPairType, List.filterMap_map, filterMap_comp_eqPair,
      filterMap_comp_ordPair]

theorem filterMap_eqPairType_flatMap (ds : List Derive) (f : ForeignOptions) :
    (ds.flatMap (fun d => d.generate f)).filterMap eqPairType = [] := by
  induction ds with
  | nil => rfl
  | cons d ds ih =>
    simp [List.flatMap_cons, List.filterMap_append, ih,
      filterMap_eqPairType_generate]

theorem deriveOwnedType_no_wrapper_eqPair (o : OwnedTypeOptions)
    (f : ForeignOptions) (e : Bool) :
    (deriveOwnedType o f e).filterMap eqPairType = [] := by
  cases e <;> cases hs : f.serde <;>
    simp [deriveOwnedType, List.filterMap_append, List.filterMap_cons, hs,
      eqPairType, filterMap_eqPairType_flatMap]

/-- C7: the foreign types receiving a wrapper-vs-foreign equality pair are
exactly `foreign_eq ++ foreign_ord` (the `eq.iter().chain(&ord)` list of
`derive_with_options`); in particular every type under `foreign_ord` gets a
symmetric equality pair even when it is absent from `foreign_eq`. -/
theorem c7_ordering_equality_coupling (options : Options) (t : TypeRef)
    (ht : t ∈ options.foreign.ord) :
    (deriveWithOptions options).filterMap eqPairType =
      options.foreign.eq ++ options.foreign.ord ∧
    Artifact.foreignEqPair t ∈ deriveWithOptions options := by
  constructor
  · cases hinf : options.infallible <;> cases hnd : options.no_deref <;>
      cases hs : options.foreign.serde <;> cases how : options.owned <;>
      simp [deriveWithOptions, List.filterMap_append, List.filterMap_cons,
        hinf, hnd, hs, how, eqPairType, List.filterMap_map,
        filterMap_comp_eqPair, filterMap_comp_ordPair,
        deriveOwnedType_no_wrapper_eqPair]
  · have hm : Artifact.foreignEqPair t ∈
        (options.foreign.eq ++ options.foreign.ord).map Artifact.foreignEqPair :=
      List.mem_map_of_mem _ (List.mem_append_right _ ht)
    simp only [deriveWithOptions, List.mem_append]
    tauto

/-- Witness for C7 at `ex7`. -/
theorem c7_ordering_equality_coupling_witness :
    (5 ∈ ex7.foreign.ord) ∧
    ((deriveWithOptions ex7).filterMap eqPairType =
      ex7.foreign.eq ++ ex7.foreign.ord ∧
    Artifact.foreignEqPair 5 ∈ deriveWithOptions ex7) :=
  ⟨by decide, c7_ordering_equality_coupling ex7 5 (by decide)⟩

/-- C3 counterexample: an owned companion is requested and type 0 is listed
under `foreign_eq`, yet no owned-vs-foreign equality pair for it is
generated — `Derive::generate` only emits the owned foreign-equality
lattice inside its `PartialEq` arm, and `ex3` requests no derive flags. -/
theorem c3_owned_foreign_eq_counterexample :
    ex3.owned.isSome = true ∧ 0 ∈ ex3.foreign.eq ∧
    Artifact.ownedForeignEqPair 0 ∉ deriveWithOptions ex3 := by
  decide

theorem partialEq_mem_toList (d : Derives) (h : d.partial_eq = true) :
    Derive.PartialEq ∈ d.toList := by
  simp [Derives.toList, h]

/-- C3, amended: when an owned companion type is requested and the
`PartialEq` derive flag is requested in the owned spec, the artifact set
contains, for every foreign type listed under `foreign_eq` or
`foreign_ord`, a symmetric owned-vs-foreign equality pair routed through
the owned type's borrowing accessor (`owned_partial_eq_impl`). Without the
`PartialEq` flag no such pair is generated (see the counterexample). -/
theorem c3_owned_foreign_eq_amended (options : Options) (o : OwnedTypeOptions)
    (ho : options.owned = some o) (hpe : o.derives.partial_eq = true)
    (t : TypeRef) (ht : t ∈ options.foreign.eq ++ options.foreign.ord) :
    Artifact.ownedForeignEqPair t ∈ deriveWithOptions options := by
  have hgen : Artifact.ownedForeignEqPair t ∈
      Derive.generate Derive.PartialEq options.foreign := by
    simp only [Derive.generate, List.mem_append]
    exact Or.inr (List.mem_map_of_mem _ ht)
  have hbind : Artifact.ownedForeignEqPair t ∈
      o.derives.toList.flatMap (fun d => d.generate options.foreign) :=
    List.mem_flatMap.2 ⟨Derive.PartialEq, partialEq_mem_toList _ hpe, hgen⟩
  have hot : Artifact.ownedForeignEqPair t ∈
      deriveOwnedType o options.foreign (!options.infallible) := by
    simp only [deriveOwnedType, List.mem_append]
    tauto
  simp only [deriveWithOptions, List.mem_append, ho]
  tauto

/-- Witness for the amended C3 at `ex3p`. -/
theorem c3_owned_foreign_eq_amended_witness :
    ex3p.owned = some (OwnedTypeOptions.mk "FooBuf"
      (Derives.mk false true false false false false)) ∧
    (OwnedTypeOptions.mk "FooBuf"
      (Derives.mk false true false false false false)).derives.partial_eq
      = true ∧
    0 ∈ ex3p.foreign.eq ++ ex3p.foreign.ord ∧
    Artifact.ownedForeignEqPair 0 ∈ deriveWithOptions ex3p :=
  ⟨rfl, rfl, by decide,
   c3_owned_foreign_eq_amended ex3p _ rfl rfl 0 (by decide)⟩

/-- C1: in fallible mode each constructor returns the error carrier wrapping
the original input exactly when the matching validation predicate rejects
it (`new` and `from_bytes` use `validate_bytes`, `from_str` uses
`validate_str`); in infallible mode `new` and `from_str` are total (they
return the wrapper directly, so no validation failure is possible) and
`from_bytes` fails only with the text-decoding error, exactly on byte
sequences that are not well-formed UTF-8 — independent of both validation
predicates, which the infallible constructors never call. -/
theorem c1_duality_consistency (validate_bytes validate_str : Bytes → Bool)
    (b : Bytes) (s : Str) :
    (Fallible.new validate_bytes b = Except.error ⟨b⟩ ↔
      validate_bytes b = false) ∧
    (Fallible.from_bytes validate_bytes b = Except.error ⟨b⟩ ↔
      validate_bytes b = false) ∧
    (Fallible.from_str validate_str s = Except.error ⟨s⟩ ↔
      validate_str s = false) ∧
    Infallible.new s = Wrapper.new_unchecked s ∧
    Infallible.from_str s = Wrapper.new_unchecked s ∧
    ((Infallible.from_bytes b).isOk = utf8Wf b) := by
  refine ⟨?_, ?_, ?_, rfl, rfl, ?_⟩
  · cases h : validate_bytes b <;> simp [Fallible.new, h]
  · cases h : validate_bytes b <;> simp [Fallible.from_bytes, h]
  · cases h : validate_str s <;> simp [Fallible.from_str, h]
  · cases h : utf8Wf b <;> simp [Infallible.from_bytes, h, Except.isOk, Except.toBool]

/-- C5: in fallible mode, when the foreign value fails validation (so its
wrapper construction fails), both generated equality directions evaluate to
`false` and both generated `partial_cmp` directions return `none`
(incomparable) — the operations are `Bool`- and `Option Ordering`-valued,
so the validation failure is never propagated as an error. -/
theorem c5_comparison_never_errors (validate_bytes : Bytes → Bool)
    (w : Wrapper) (f : Bytes) (hf : validate_bytes f = false) :
    eqWrapperForeign validate_bytes w f = false ∧
    eqForeignWrapper validate_bytes f w = false ∧
    ordWrapperForeign validate_bytes w f = none ∧
    ordForeignWrapper validate_bytes f w = none := by
  simp [eqWrapperForeign, eqForeignWrapper, ordWrapperForeign,
    ordForeignWrapper, Fallible.new, hf]

/-- Witness for C5: comparing the wrapper over bytes `foo` against the
foreign value `bar` under a validator accepting only `foo`. -/
theorem c5_comparison_never_errors_witness :
    (fun x : Bytes => x == [102, 111, 111]) [98, 97, 114] = false ∧
    (eqWrapperForeign (fun x : Bytes => x == [102, 111, 111])
        ⟨[102, 111, 111]⟩ [98, 97, 114] = false ∧
      eqForeignWrapper (fun x : Bytes => x == [102, 111, 111])
        [98, 97, 114] ⟨[102, 111, 111]⟩ = false ∧
      ordWrapperForeign (fun x : Bytes => x == [102, 111, 111])
        ⟨[102, 111, 111]⟩ [98, 97, 114] = none ∧
      ordForeignWrapper (fun x : Bytes => x == [102, 111, 111])
        [98, 97, 114] ⟨[102, 111, 111]⟩ = none) :=
  ⟨by decide, c5_comparison_never_errors _ _ _ (by decide)⟩

/-- C6: every byte sequence accepted by `validate_bytes` constructs
successfully through `from_bytes`, and reading the wrapper back through
`as_bytes` yields exactly the input bytes. -/
theorem c6_round_trip (validate_bytes : Bytes → Bool) (b : Bytes)
    (hb : validate_bytes b = true) :
    ∃ w, Fallible.from_bytes validate_bytes b = Except.ok w ∧
      w.as_bytes = b := by
  refine ⟨Wrapper.new_unchecked_from_bytes b, ?_, rfl⟩
  simp [Fallible.from_bytes, hb]

/-- Witness for C6: the bytes `foo` under a validator accepting only
`foo`. -/
theorem c6_round_trip_witness :
    (fun x : Bytes => x == [102, 111, 111]) [102, 111, 111] = true ∧
    ∃ w, Fallible.from_bytes (fun x : Bytes => x == [102, 111, 111])
        [102, 111, 111] = Except.ok w ∧
      w.as_bytes = [102, 111, 111] :=
  ⟨by decide, c6_round_trip _ _ (by decide)⟩

/-- C8: with both `Hash` and `PartialEq` requested, the generated owned
equality and the generated owned hash delegate through the same borrowing
accessor output, so whenever the wrapper's own equality and hash are
consistent (the documented precondition), equal owned values hash
identically. -/
theorem c8_hash_equality_consistency (h : Wrapper → Nat)
    (hcons : ∀ x y : Wrapper, x.beq y = true → h x = h y)
    (a b : Owned) (hab : Owned.eq a b = true) :
    Owned.hash h a = Owned.hash h b :=
  hcons a.as_wrapper b.as_wrapper hab

/-- Witness for C8: the length hash (consistent with byte equality) on two
owned values over the same buffer. -/
theorem c8_hash_equality_consistency_witness :
    Owned.eq ⟨[102, 111, 111]⟩ ⟨[102, 111, 111]⟩ = true ∧
    Owned.hash (fun w => w.bytes.length) ⟨[102, 111, 111]⟩ =
      Owned.hash (fun w => w.bytes.length) ⟨[102, 111, 111]⟩ :=
  ⟨by decide,
   c8_hash_equality_consistency (fun w => w.bytes.length)
     (fun x y hxy => by
       have : x.bytes = y.bytes := by simpa [Wrapper.beq] using hxy
       simp [this])
     ⟨[102, 111, 111]⟩ ⟨[102, 111, 111]⟩ (by decide)⟩

/-- C10: the infallible `new` and `from_str` are total (they call no
validation predicate — their definitions take none) and for every string
input, including any a validation predicate would reject, the constructed
wrapper reads back verbatim through `as_str`. -/
theorem c10_infallible_bypasses_validation (s : Str) :
    Infallible.new s = Infallible.from_str s ∧
    (Infallible.from_str s).as_str = s ∧
    (Infallible.new s).as_str = s :=
  ⟨rfl, rfl, rfl⟩
